import Mathlib

/-!
Verification of the loxone-philips-hue relay pipeline.

Shallow embedding of the Go sources:
* `udp/client.go` — bounded send queue (`Send`), backoff with jitter
  (`nextBackoff`), the drain loop's per-message retry logic (`runSender`);
* `client/event_streamer.go` — the stream `Run` reconnect loop and the
  `handle` dispatch step;
* `client/events.go` — `decodeResource` over a small JSON value model;
* the UDP command server — `parseCommand`.

Durations are modelled as exact rationals (integer nanoseconds in Go;
the float64 jitter arithmetic and the final truncation to integer
nanoseconds are modelled exactly over `ℚ`). Byte slices are modelled as
`List Nat`; a Go `nil` slice is `Option.none`.
-/

namespace LoxoneHue

/-! ## udp/client.go : the bounded send queue

`Send` enqueues into a buffered channel of capacity `cap`:
it first tries a non-blocking enqueue; if the channel is full it performs
one non-blocking dequeue (dropping the oldest element) and retries the
enqueue once, dropping the new message if that still fails.  With no
concurrent dequeuer (the drain loop idle), the channel is exactly a FIFO
list bounded by `cap`. -/

/-- One `Client.Send` call.  `q` is the channel contents, oldest first.
`b = none` models a `nil` byte slice (the early return). -/
def Send (cap : Nat) (q : List (List Nat)) (b : Option (List Nat)) : List (List Nat) :=
  match b with
  | none => q
  | some m =>
    if q.length < cap then
      q ++ [m]
    else
      let q1 := if 0 < q.length then q.tail else q
      if q1.length < cap then q1 ++ [m] else q1

/-- A sequence of `Send` calls with non-nil payloads, no dequeues in between. -/
def sendAll (cap : Nat) (q : List (List Nat)) (ms : List (List Nat)) : List (List Nat) :=
  ms.foldl (fun acc m => Send cap acc (some m)) q

/-- The suffix of the last `k` elements of `l` (all of `l` when `l.length ≤ k`). -/
def lastN (k : Nat) (l : List (List Nat)) : List (List Nat) :=
  l.drop (l.length - k)

/-! ## udp/client.go : backoff with jitter

`nextBackoff` doubles the current delay, caps it at `MaxBackoff`, then adds
a ±20% jitter: `j := float64(next) * (0.2 * (rand.Float64()*2 - 1))`.
The random draw `rand.Float64()*2 - 1` is modelled by the parameter
`ε ∈ [-1, 1]`; durations are exact rationals. -/

/-- The `BaseBackoff` and `MaxBackoff` fields of `ClientConfig` (nanoseconds, as `ℚ`). -/
structure UdpCfg where
  base : ℚ
  max : ℚ

/-- Model of `Client.nextBackoff`, with the jitter draw `ε` made explicit. -/
def nextBackoff (cfg : UdpCfg) (curr : ℚ) (ε : ℚ) : ℚ :=
  let c := if curr ≤ 0 then cfg.base else curr
  let next := if 2 * c > cfg.max then cfg.max else 2 * c
  next + next * ((1/5) * ε)

/-! ## udp/client.go : the drain loop (`runSender`)

One iteration of `runSender` dequeues a message, reconnects if the
connection is not ready, then attempts the write up to
`maxSendAttempts = 3` times.  A retryable failure forces a reconnect,
sleeps the current backoff, and advances the backoff; a non-retryable
failure or a success stops the attempts.  The outcome of each write and
each jitter draw are inputs of the model. -/

/-- Result of one `c.write` call, as classified by `retryable`:
`ok` — no error; `retry` — a retryable error (net timeout/temporary,
ECONNREFUSED, ENETUNREACH, EHOSTUNREACH, ECONNRESET, EPIPE);
`fatal` — any other error. -/
inductive WriteRes where
  | ok
  | retry
  | fatal
deriving DecidableEq, Repr

/-- Environment of one dequeued message inside `runSender`:
whether `isConnReady` holds on entry, whether the pre-send `reconnect`
would succeed, the jitter draw of the pre-send backoff advance, the
result of the `attempt`-th write, and the jitter draw of the backoff
advance after the `attempt`-th retryable failure. -/
structure MsgCase where
  connReady : Bool
  reconnectOk : Bool
  reconJit : ℚ
  res : Nat → WriteRes
  jit : Nat → ℚ

/-- Outcome of processing one message: whether it was sent, the tracked
backoff afterwards, the list of backoff delays actually slept (in order),
and the number of write attempts made. -/
structure MsgOutcome where
  sent : Bool
  backoff : ℚ
  sleeps : List ℚ
  writes : Nat
deriving Repr

/-- The `for attempt := 1; attempt <= maxSendAttempts` loop of `runSender`.
`fuel` is the number of attempts left, `i` the index of the current
attempt (0-based).  On a retryable failure the code reconnects, sleeps
the *current* backoff, then advances it with `nextBackoff`. -/
def attemptLoop (cfg : UdpCfg) (m : MsgCase) : Nat → Nat → ℚ → MsgOutcome
  | 0, _, b => ⟨false, b, [], 0⟩
  | fuel + 1, i, b =>
    match m.res i with
    | .ok => ⟨true, cfg.base, [], 1⟩
    | .fatal => ⟨false, b, [], 1⟩
    | .retry =>
      let r := attemptLoop cfg m fuel (i + 1) (nextBackoff cfg b (m.jit i))
      ⟨r.sent, r.backoff, b :: r.sleeps, r.writes + 1⟩

/-- The constant `maxSendAttempts` in `runSender`. -/
def maxSendAttempts : Nat := 3

/-- Processing of one dequeued message by `runSender`: the
`isConnReady`/`reconnect` pre-step (which on a failed reconnect advances
the backoff and sleeps the *new* value, and on a successful reconnect
resets it to the base), followed by the attempt loop. -/
def processMsg (cfg : UdpCfg) (b : ℚ) (m : MsgCase) : MsgOutcome :=
  if m.connReady then
    attemptLoop cfg m maxSendAttempts 0 b
  else if m.reconnectOk then
    attemptLoop cfg m maxSendAttempts 0 cfg.base
  else
    let nb := nextBackoff cfg b m.reconJit
    let r := attemptLoop cfg m maxSendAttempts 0 nb
    ⟨r.sent, r.backoff, nb :: r.sleeps, r.writes⟩

/-- The drain loop over a queue of messages: each message is dequeued and
processed exactly once; its outcome is recorded and the loop moves to the
next message with the updated backoff.  A dropped message is never
re-inserted. -/
def drainSender (cfg : UdpCfg) : List MsgCase → ℚ → List MsgOutcome × ℚ
  | [], b => ([], b)
  | m :: ms, b =>
    let r := processMsg cfg b m
    let rest := drainSender cfg ms r.backoff
    (r :: rest.1, rest.2)

/-! ## client/event_streamer.go : the `Run` reconnect loop

`Run` starts with `backoff := time.Second`, calls `streamOnce`, and:
on a nil error resets the backoff to one second and reconnects at once
(no sleep); on an error sleeps the current backoff, then doubles it with
a 30-second cap (`backoffMax`).  Delays are in seconds here, as `ℚ`. -/

/-- The constant `backoffMax = 30 * time.Second`, in seconds. -/
def backoffMax : ℚ := 30

/-- The status check at the top of `streamOnce`: a non-OK handshake
status yields an error (`"unexpected status"`), so the cycle counts as a
failure in `Run`. -/
def streamOnceStatusErr (statusCode : Nat) : Option String :=
  if statusCode ≠ 200 then some "unexpected status" else none

/-- One turn of the `Run` loop after `streamOnce` returns.
`errored` is whether the cycle ended with a non-nil error.  Returns the
backoff for the next turn and the sleep performed (`none` = reconnect
immediately). -/
def runStep (b : ℚ) (errored : Bool) : ℚ × Option ℚ :=
  if errored then
    (if b < backoffMax then
       (if b * 2 > backoffMax then backoffMax else b * 2)
     else b,
     some b)
  else (1, none)

/-- The `Run` loop over a finite prefix of cycle outcomes, returning the
final backoff and every sleep performed, in order. -/
def runLoop : List Bool → ℚ → ℚ × List ℚ
  | [], b => (b, [])
  | e :: es, b =>
    let s := runStep b e
    let rest := runLoop es s.1
    (rest.1, s.2.toList ++ rest.2)

/-! ## The UDP command server : `parseCommand`

`parseCommand` splits the line into whitespace-separated fields
(`strings.Fields`), takes the first as path and the second as value,
splits the trimmed path on `/`, and validates domain, action and value.
Strings are handled as character lists. -/

/-- The ASCII white-space characters recognised by `strings.Fields`
(`unicode.IsSpace`; the Latin-1 additions U+0085 and U+00A0 are elided —
no claim involves them). -/
def isSpaceGo (c : Char) : Bool :=
  c == ' ' || c == '\t' || c == '\n' || c == '\r' || c == '\x0b' || c == '\x0c'

/-- Accumulating splitter behind `fieldsGo`: `acc` holds the current
word, reversed. -/
def fieldsAux : List Char → List Char → List (List Char)
  | [], acc => if acc.isEmpty then [] else [acc.reverse]
  | c :: cs, acc =>
    if isSpaceGo c then
      if acc.isEmpty then fieldsAux cs [] else acc.reverse :: fieldsAux cs []
    else fieldsAux cs (c :: acc)

/-- Model of `strings.Fields`: the maximal runs of non-space characters. -/
def fieldsGo (s : List Char) : List (List Char) :=
  fieldsAux s []

/-- Model of `strings.Split` for the one-character separator `/`. -/
def splitSlash : List Char → List (List Char)
  | [] => [[]]
  | c :: cs =>
    if c = '/' then [] :: splitSlash cs
    else
      match splitSlash cs with
      | [] => [[c]]
      | w :: ws => (c :: w) :: ws

/-- Model of `strings.Trim` with cutset space, tab, CR, LF. -/
def isTrimCut (c : Char) : Bool := c == ' ' || c == '\t' || c == '\r' || c == '\n'

def trimGo (s : List Char) : List Char :=
  ((s.dropWhile isTrimCut).reverse.dropWhile isTrimCut).reverse

/-- Model of `strings.ToLower` restricted to ASCII (command values are ASCII). -/
def toLowerGo (s : List Char) : List Char := s.map Char.toLower

/-- Digit-run parser behind `atoiGo`. -/
def digitsToNat : List Char → Option Nat
  | [] => none
  | ds =>
    if ds.all Char.isDigit then
      some (ds.foldl (fun n c => n * 10 + (c.toNat - 48)) 0)
    else none

/-- Model of `strconv.Atoi`: optional sign then a non-empty digit run (the int64
overflow bound is elided — the only consumer checks `0 ≤ n ≤ 100`). -/
def atoiGo : List Char → Option Int
  | '+' :: ds => (digitsToNat ds).map Int.ofNat
  | '-' :: ds => (digitsToNat ds).map (fun n => -(n : Int))
  | ds => (digitsToNat ds).map Int.ofNat

/-- The parsed `Command` struct. -/
structure Command where
  domain : List Char
  id : List Char
  action : List Char
  value : List Char
deriving DecidableEq, Repr

/-- The distinct `parseCommand` errors, one per `fmt.Errorf` site. -/
inductive ParseErr where
  | expectedPathValue   -- "expected '<path> <value>'"
  | badPath             -- "bad path: %s"
  | unsupportedDomain   -- "unsupported domain: %s"
  | unsupportedAction   -- "unsupported action: %s"
  | onExpectsBool       -- "on expects true|false|1|0"
  | dimmableRange       -- "dimmable expects 0..100"
deriving DecidableEq, Repr

/-- The segment validation of `parseCommand` (`len(segs) < 4 || segs[0]
!= ""` then the domain and action switches), split out of the field
split for proof convenience. -/
def parseSegs (segs : List (List Char)) (value : List Char) : Except ParseErr Command :=
  match segs with
  | seg0 :: domain :: id :: action :: _ =>
    if seg0 ≠ [] then .error .badPath
    else if domain ≠ "grouped_light".toList then .error .unsupportedDomain
    else if action = "on".toList then
      let v := toLowerGo value
      if v = "true".toList ∨ v = "false".toList ∨ v = "1".toList ∨ v = "0".toList then
        .ok ⟨domain, id, action, value⟩
      else .error .onExpectsBool
    else if action = "dimmable".toList then
      match atoiGo value with
      | some n => if 0 ≤ n ∧ n ≤ 100 then .ok ⟨domain, id, action, value⟩
                  else .error .dimmableRange
      | none => .error .dimmableRange
    else .error .unsupportedAction
  | _ => .error .badPath

/-- The function `parseCommand` of the UDP command server. -/
def parseCommand (line : List Char) : Except ParseErr Command :=
  match fieldsGo line with
  | path :: value :: _ => parseSegs (splitSlash (trimGo path)) value
  | _ => .error .expectedPathValue

/-! ## client/events.go : JSON value model and `decodeResource`

A record payload is one JSON value.  `encoding/json` unmarshalling into
the Go structs is modelled field by field: an absent field or a JSON
`null` leaves the zero value, a present field of the wrong shape is an
unmarshal error.  Time-stamp fields (`changed`, `last_recall`) and the
textual rendering of numbers are elided; numbers are exact rationals. -/

inductive Json where
  | null
  | bool (b : Bool)
  | num (q : ℚ)
  | str (s : String)
  | arr (elems : List Json)
  | obj (fields : List (String × Json))

/-- Object field lookup; on duplicate keys `encoding/json` keeps the last
value. -/
def getField : List (String × Json) → String → Option Json
  | [], _ => none
  | (k', v) :: fs, k =>
    match getField fs k with
    | some v2 => some v2
    | none => if k' = k then some v else none

/-- Unmarshal an optional field into a `string` (zero value `""`). -/
def decStr (tn : String) : Option Json → Except String String
  | none => .ok ""
  | some .null => .ok ""
  | some (.str s) => .ok s
  | some _ => .error (tn ++ ": cannot unmarshal into string")

/-- Unmarshal an optional field into a `bool` (zero value `false`). -/
def decBool (tn : String) : Option Json → Except String Bool
  | none => .ok false
  | some .null => .ok false
  | some (.bool b) => .ok b
  | some _ => .error (tn ++ ": cannot unmarshal into bool")

/-- Unmarshal an optional field into a `float64` (zero value `0`). -/
def decNum (tn : String) : Option Json → Except String ℚ
  | none => .ok 0
  | some .null => .ok 0
  | some (.num q) => .ok q
  | some _ => .error (tn ++ ": cannot unmarshal into float64")

/-- The `Owner` struct (json keys `rid`, `rtype`). -/
structure Owner where
  id : String
  type : String
deriving DecidableEq, Repr

def decOwner (tn : String) : Option Json → Except String Owner
  | none => .ok ⟨"", ""⟩
  | some .null => .ok ⟨"", ""⟩
  | some (.obj fs) => do
    let rid ← decStr tn (getField fs "rid")
    let rtype ← decStr tn (getField fs "rtype")
    .ok ⟨rid, rtype⟩
  | some _ => .error (tn ++ ": cannot unmarshal into Owner")

/-- The `GenericEvent` struct (json keys `id`, `type`, `owner`). -/
structure GenericEvent where
  id : String
  type : String
  owner : Owner
deriving DecidableEq, Repr

def decGeneric (tn : String) (fs : List (String × Json)) :
    Except String GenericEvent := do
  let id ← decStr tn (getField fs "id")
  let ty ← decStr tn (getField fs "type")
  let ow ← decOwner tn (getField fs "owner")
  .ok ⟨id, ty, ow⟩

/-- The `ContactReport.State` field (the `changed` time stamp is elided). -/
structure ContactReport where
  state : String
deriving DecidableEq, Repr

/-- The `MotionReport.Motion` field (the `changed` time stamp is elided). -/
structure MotionReport where
  motion : Bool
deriving DecidableEq, Repr

/-- The `LightLevelReport.LightLevel` field (the `changed` time stamp is elided). -/
structure LightLevelReport where
  lightLevel : ℚ
deriving DecidableEq, Repr

/-- The decoded `EventResource` variants of client/events.go.
`groupedLightLevel` exists only as a dispatch arm in `handle`;
`decodeResource` maps `"grouped_light_level"` to `muted`. -/
inductive EventResource where
  | light (g : GenericEvent) (onState : Option Bool)
  | contact (g : GenericEvent) (report : Option ContactReport)
  | tamper (g : GenericEvent) (reports : List (Option (String × String)))
  | zigbeeConnectivity (g : GenericEvent) (idV1 : String) (status : String)
  | scene (g : GenericEvent) (idV1 : String) (statusActive : String)
  | groupedLight (g : GenericEvent) (idV1 : String) (brightness : ℚ)
  | motion (g : GenericEvent) (report : Option MotionReport)
  | groupedMotion (g : GenericEvent) (report : Option MotionReport)
  | lightLevel (g : GenericEvent) (report : Option LightLevelReport)
  | groupedLightLevel (g : GenericEvent) (report : Option LightLevelReport)
  | temperature (g : GenericEvent) (report : Option ℚ)
  | muted (g : GenericEvent)
  | unknownEvent (ty : String) (raw : Json)

/-- The method `GetGeneric`: every struct variant embeds a `GenericEvent`;
`UnknownEvent.GetGeneric` returns a fresh zero `&GenericEvent{}`. -/
def EventResource.getGeneric : EventResource → GenericEvent
  | .light g _ => g
  | .contact g _ => g
  | .tamper g _ => g
  | .zigbeeConnectivity g _ _ => g
  | .scene g _ _ => g
  | .groupedLight g _ _ => g
  | .motion g _ => g
  | .groupedMotion g _ => g
  | .lightLevel g _ => g
  | .groupedLightLevel g _ => g
  | .temperature g _ => g
  | .muted g => g
  | .unknownEvent _ _ => ⟨"", "", ⟨"", ""⟩⟩

/-- Unmarshal of a whole payload into a struct: `null` leaves the zero
value `z`, an object is decoded by `k`, anything else errors. -/
def withObj (tn : String) (j : Json) (z : EventResource)
    (k : List (String × Json) → Except String EventResource) :
    Except String EventResource :=
  match j with
  | .null => .ok z
  | .obj fs => k fs
  | _ => .error (tn ++ ": cannot unmarshal into struct")

def zeroGeneric : GenericEvent := ⟨"", "", ⟨"", ""⟩⟩

/-- Unmarshal into `LightEvent` (`on,omitempty` is a pointer:
absent/null gives `nil`). -/
def decLightEvent (j : Json) : Except String EventResource :=
  withObj "LightEvent" j (.light zeroGeneric none) fun fs => do
    let g ← decGeneric "LightEvent" fs
    match getField fs "on" with
    | none => .ok (.light g none)
    | some .null => .ok (.light g none)
    | some (.obj fs2) => do
      let b ← decBool "LightEvent" (getField fs2 "on")
      .ok (.light g (some b))
    | some _ => .error "LightEvent: cannot unmarshal field on"

/-- Unmarshal into `ContactEvent` (`contact_report,omitempty` pointer). -/
def decContactEvent (j : Json) : Except String EventResource :=
  withObj "ContactEvent" j (.contact zeroGeneric none) fun fs => do
    let g ← decGeneric "ContactEvent" fs
    match getField fs "contact_report" with
    | none => .ok (.contact g none)
    | some .null => .ok (.contact g none)
    | some (.obj fs2) => do
      let st ← decStr "ContactEvent" (getField fs2 "state")
      .ok (.contact g (some ⟨st⟩))
    | some _ => .error "ContactEvent: cannot unmarshal field contact_report"

/-- Unmarshal one element of `TamperReports` (a `*struct`; `null` gives a
nil entry). -/
def decTamperReport : Json → Except String (Option (String × String))
  | .null => .ok none
  | .obj fs => do
    let src ← decStr "TamperEvent" (getField fs "source")
    let st ← decStr "TamperEvent" (getField fs "state")
    .ok (some (src, st))
  | _ => .error "TamperEvent: cannot unmarshal tamper report"

/-- Unmarshal into `TamperEvent`. -/
def decTamperEvent (j : Json) : Except String EventResource :=
  withObj "TamperEvent" j (.tamper zeroGeneric []) fun fs => do
    let g ← decGeneric "TamperEvent" fs
    match getField fs "tamper_reports" with
    | none => .ok (.tamper g [])
    | some .null => .ok (.tamper g [])
    | some (.arr xs) => do
      let rs ← xs.mapM decTamperReport
      .ok (.tamper g rs)
    | some _ => .error "TamperEvent: cannot unmarshal field tamper_reports"

/-- Unmarshal into `ZigbeeConnectivityEvent`. -/
def decZigbeeEvent (j : Json) : Except String EventResource :=
  withObj "ZigbeeConnectivityEvent" j (.zigbeeConnectivity zeroGeneric "" "") fun fs => do
    let g ← decGeneric "ZigbeeConnectivityEvent" fs
    let idv1 ← decStr "ZigbeeConnectivityEvent" (getField fs "id_v1")
    let st ← decStr "ZigbeeConnectivityEvent" (getField fs "status")
    .ok (.zigbeeConnectivity g idv1 st)

/-- Unmarshal into `SceneEvent` (`status.last_recall` elided). -/
def decSceneEvent (j : Json) : Except String EventResource :=
  withObj "SceneEvent" j (.scene zeroGeneric "" "") fun fs => do
    let g ← decGeneric "SceneEvent" fs
    let idv1 ← decStr "SceneEvent" (getField fs "id_v1")
    match getField fs "status" with
    | none => .ok (.scene g idv1 "")
    | some .null => .ok (.scene g idv1 "")
    | some (.obj fs2) => do
      let act ← decStr "SceneEvent" (getField fs2 "active")
      .ok (.scene g idv1 act)
    | some _ => .error "SceneEvent: cannot unmarshal field status"

/-- Unmarshal into `GroupedLightEvent`. -/
def decGroupedLightEvent (j : Json) : Except String EventResource :=
  withObj "GroupedLightEvent" j (.groupedLight zeroGeneric "" 0) fun fs => do
    let g ← decGeneric "GroupedLightEvent" fs
    let idv1 ← decStr "GroupedLightEvent" (getField fs "id_v1")
    match getField fs "dimming" with
    | none => .ok (.groupedLight g idv1 0)
    | some .null => .ok (.groupedLight g idv1 0)
    | some (.obj fs2) => do
      let b ← decNum "GroupedLightEvent" (getField fs2 "brightness")
      .ok (.groupedLight g idv1 b)
    | some _ => .error "GroupedLightEvent: cannot unmarshal field dimming"

/-- The shared `Motion.MotionReport` shape of `MotionEvent` and
`GroupedMotionEvent` (json `motion.motion_report.motion`). -/
def decMotionReport (tn : String) (fs : List (String × Json)) :
    Except String (Option MotionReport) :=
  match getField fs "motion" with
  | none => .ok none
  | some .null => .ok none
  | some (.obj fs2) =>
    match getField fs2 "motion_report" with
    | none => .ok none
    | some .null => .ok none
    | some (.obj fs3) => do
      let b ← decBool tn (getField fs3 "motion")
      .ok (some ⟨b⟩)
    | some _ => .error (tn ++ ": cannot unmarshal field motion_report")
  | some _ => .error (tn ++ ": cannot unmarshal field motion")

/-- Unmarshal into `MotionEvent`. -/
def decMotionEvent (j : Json) : Except String EventResource :=
  withObj "MotionEvent" j (.motion zeroGeneric none) fun fs => do
    let g ← decGeneric "MotionEvent" fs
    let r ← decMotionReport "MotionEvent" fs
    .ok (.motion g r)

/-- Unmarshal into `GroupedMotionEvent` (embeds `*MotionEvent`). -/
def decGroupedMotionEvent (j : Json) : Except String EventResource :=
  withObj "GroupedMotionEvent" j (.groupedMotion zeroGeneric none) fun fs => do
    let g ← decGeneric "GroupedMotionEvent" fs
    let r ← decMotionReport "GroupedMotionEvent" fs
    .ok (.groupedMotion g r)

/-- Unmarshal into `TemperatureEvent`
(json `temperature.temperature_report.temperature`). -/
def decTemperatureEvent (j : Json) : Except String EventResource :=
  withObj "TemperatureEvent" j (.temperature zeroGeneric none) fun fs => do
    let g ← decGeneric "TemperatureEvent" fs
    match getField fs "temperature" with
    | none => .ok (.temperature g none)
    | some .null => .ok (.temperature g none)
    | some (.obj fs2) =>
      match getField fs2 "temperature_report" with
      | none => .ok (.temperature g none)
      | some .null => .ok (.temperature g none)
      | some (.obj fs3) => do
        let t ← decNum "TemperatureEvent" (getField fs3 "temperature")
        .ok (.temperature g (some t))
      | some _ => .error "TemperatureEvent: cannot unmarshal field temperature_report"
    | some _ => .error "TemperatureEvent: cannot unmarshal field temperature"

/-- Unmarshal into `MutedEvent` (only the embedded generic header
matters downstream; the untagged `Type`/`Raw` fields are elided). -/
def decMutedEvent (j : Json) : Except String EventResource :=
  withObj "MutedEvent" j (.muted zeroGeneric) fun fs => do
    let g ← decGeneric "MutedEvent" fs
    .ok (.muted g)

/-- Prepend the `fmt.Errorf("<tag>: %w", err)` wrapper. -/
def wrapErr (tag : String) : Except String EventResource → Except String EventResource
  | .ok v => .ok v
  | .error e => .error (tag ++ ": " ++ e)

/-- The first phase of `decodeResource`: unmarshal only the `type` field
(`typeProbe`). -/
def probeType (j : Json) : Except String String :=
  match j with
  | .null => .ok ""
  | .obj fs => decStr "peek type" (getField fs "type")
  | _ => .error "peek type: cannot unmarshal"

/-- The two-phase `decodeResource`: peek the `type` discriminator, then
unmarshal with the variant-specific struct.  Note the source's
`"light_level"` case unmarshals with the `LightEvent` struct, not
`LightLevelEvent`. -/
def decodeResource (j : Json) : Except String EventResource := do
  let ty ← probeType j
  if ty = "light" then wrapErr "light" (decLightEvent j)
  else if ty = "contact" then wrapErr "contact" (decContactEvent j)
  else if ty = "tamper" then wrapErr "tamper" (decTamperEvent j)
  else if ty = "zigbee_connectivity" then wrapErr "zigbee_connectivity" (decZigbeeEvent j)
  else if ty = "scene" then wrapErr "scene" (decSceneEvent j)
  else if ty = "grouped_light" then wrapErr "grouped_light" (decGroupedLightEvent j)
  else if ty = "motion" then wrapErr "motion" (decMotionEvent j)
  else if ty = "grouped_motion" then wrapErr "grouped_motion" (decGroupedMotionEvent j)
  else if ty = "light_level" then wrapErr "light_level" (decLightEvent j)
  else if ty = "temperature" then wrapErr "temperature" (decTemperatureEvent j)
  else if ty = "geofence_client" then wrapErr "muted" (decMutedEvent j)
  else if ty = "grouped_light_level" then wrapErr "muted" (decMutedEvent j)
  else .ok (.unknownEvent ty j)

/-- The discriminators `decodeResource` recognises. -/
def knownTypes : List String :=
  ["light", "contact", "tamper", "zigbee_connectivity", "scene", "grouped_light",
   "motion", "grouped_motion", "light_level", "temperature", "geofence_client",
   "grouped_light_level"]

/-! ## client/event_streamer.go : `handle`

For each decoded event the switch derives zero or more UDP datagrams.
A datagram `/<kind>/<id>/<field> <value>` is modelled as a path string
and a rational value (`%b` prints the ints 1/0 as `1`/`0`; the
`%f`/`%.2f` textual rendering of floats is elided, the value is kept). -/

structure WireMessage where
  path : String
  value : ℚ
deriving DecidableEq, Repr

/-- The wire messages produced by one event in `handle`'s type switch.
`parent` is `ev.GetGeneric().Owner`. -/
def dispatch (ev : EventResource) : List WireMessage :=
  match ev with
  | .contact g r =>
    match r with
    | some rep =>
      [⟨"/contact/" ++ g.owner.id ++ "/state", if rep.state = "contact" then 1 else 0⟩]
    | none => []
  | .motion g r =>
    match r with
    | some rep =>
      if g.owner.id = "" then []
      else [⟨"/sensor/" ++ g.owner.id ++ "/motion", if rep.motion then 1 else 0⟩]
    | none => []
  | .groupedMotion g r =>
    match r with
    | some rep =>
      if g.owner.type = "bridge_home" then []
      else [⟨"/group/" ++ g.owner.id ++ "/motion", if rep.motion then 1 else 0⟩]
    | none => []
  | .lightLevel g r =>
    match r with
    | some rep => [⟨"/sensor/" ++ g.owner.id ++ "/light_level", rep.lightLevel⟩]
    | none => []
  | .groupedLightLevel g r =>
    match r with
    | some rep => [⟨"/sensor/" ++ g.owner.id ++ "/light_level", rep.lightLevel⟩]
    | none => []
  | .temperature g r =>
    match r with
    | some t => [⟨"/sensor/" ++ g.owner.id ++ "/temperature", t⟩]
    | none => []
  | _ => []

/-- The inner loop of `handle` over `c.Data`: each record is decoded and
dispatched in order; a decode error makes `handle` return that error at
once, so the remaining records are not processed (messages already sent
stay sent). -/
def handleRecords : List Json → List WireMessage × Option String
  | [] => ([], none)
  | j :: rest =>
    match decodeResource j with
    | .error e => ([], some e)
    | .ok ev =>
      let r := handleRecords rest
      (dispatch ev ++ r.1, r.2)

/-- The function `handle` over the containers of one SSE payload (a container is its
`Data` array). -/
def handleContainers : List (List Json) → List WireMessage × Option String
  | [] => ([], none)
  | c :: cs =>
    let r := handleRecords c
    match r.2 with
    | some e => (r.1, some e)
    | none =>
      let rest := handleContainers cs
      (r.1 ++ rest.1, rest.2)

/-! ## Inputs and spec-side predicates used by the claims -/

/-- A well-formed `contact` record payload with identifier `id`, owner
resource id `rid` and contact state `st`. -/
def contactPayload (id rid st : String) : Json :=
  .obj [("id", .str id), ("type", .str "contact"),
        ("owner", .obj [("rid", .str rid), ("rtype", .str "device")]),
        ("contact_report", .obj [("state", .str st)])]

/-- A `contact` record payload carrying no `contact_report`. -/
def contactPayloadNoReport (id rid : String) : Json :=
  .obj [("id", .str id), ("type", .str "contact"),
        ("owner", .obj [("rid", .str rid), ("rtype", .str "device")])]

/-- A structurally malformed `contact` record: `contact_report` is a
number, which `json.Unmarshal` rejects for the report struct. -/
def badContactPayload : Json :=
  .obj [("type", .str "contact"), ("contact_report", .num 5)]

/-- A `light_level` record payload carrying an ambient-light-level
report of `lvl`, laid out as the `LightLevelEvent` struct tags describe
(`motion.motion_report.motion`). -/
def lightLevelPayload (id rid : String) (lvl : ℚ) : Json :=
  .obj [("id", .str id), ("type", .str "light_level"),
        ("owner", .obj [("rid", .str rid), ("rtype", .str "device")]),
        ("motion", .obj [("motion_report", .obj [("motion", .num lvl)])])]

/-- The drain-loop scenario of C3: a message whose three write attempts
all fail with a retryable error, with jitter draws `ε1 ε2 ε3` for the
three backoff advances; the connection is ready on entry. -/
def retryMsg (ε1 ε2 ε3 : ℚ) : MsgCase :=
  ⟨true, true, 0, fun _ => .retry, fun i => if i = 0 then ε1 else if i = 1 then ε2 else ε3⟩

/-- A message whose first write succeeds. -/
def okMsg : MsgCase :=
  ⟨true, true, 0, fun _ => .ok, fun _ => 0⟩

/-- Join whitespace-separated fields back with single blanks: the
"trimmed form" of a command line. -/
def joinSpace (toks : List (List Char)) : List Char :=
  (toks.intersperse [' ']).flatten

/-- The acceptance condition of claim C6, stated over the same
tokenisation `parseCommand` uses: a first field that is a slash path of
at least four segments with empty leading segment, domain
`grouped_light`, and either action `on` with a case-insensitive boolean
value or action `dimmable` with an integer value in `0..100`. -/
def SpecSegsC6 (segs : List (List Char)) (value : List Char) : Prop :=
  match segs with
  | seg0 :: domain :: _ :: action :: _ =>
    seg0 = [] ∧ domain = "grouped_light".toList ∧
    ((action = "on".toList ∧
      (toLowerGo value = "true".toList ∨ toLowerGo value = "false".toList ∨
       toLowerGo value = "1".toList ∨ toLowerGo value = "0".toList)) ∨
     (action = "dimmable".toList ∧
      ∃ n : Int, atoiGo value = some n ∧ 0 ≤ n ∧ n ≤ 100))
  | _ => False

def SpecAcceptsC6 (line : List Char) : Prop :=
  match fieldsGo line with
  | path :: value :: _ => SpecSegsC6 (splitSlash (trimGo path)) value
  | _ => False

/-! ## Queue lemmas -/

theorem lastN_of_le {k : Nat} {l : List (List Nat)} (h : l.length ≤ k) :
    lastN k l = l := by
  simp [lastN, Nat.sub_eq_zero_of_le h]

theorem length_lastN (k : Nat) (l : List (List Nat)) :
    (lastN k l).length = min k l.length := by
  simp [lastN]
  omega

theorem lastN_cons {k : Nat} {l : List (List Nat)} (x : List Nat)
    (h : k ≤ l.length) : lastN k (x :: l) = lastN k l := by
  have hk : l.length + 1 - k = (l.length - k) + 1 := by omega
  simp only [lastN, List.length_cons, hk, List.drop_succ_cons]

theorem lastN_idem_append (k : Nat) (l ms : List (List Nat)) :
    lastN k (lastN k l ++ ms) = lastN k (l ++ ms) := by
  induction l with
  | nil => simp [lastN]
  | cons x xs ih =>
    rcases Nat.lt_or_ge xs.length k with hlt | hge
    · have : (x :: xs).length ≤ k := by simp; omega
      rw [lastN_of_le this]
    · have h1 : lastN k (x :: xs) = lastN k xs := lastN_cons x hge
      have h2 : lastN k (x :: xs ++ ms) = lastN k (xs ++ ms) := by
        have : k ≤ (xs ++ ms).length := by simp; omega
        simpa using lastN_cons x this
      rw [h1, ih, h2]

theorem Send_full_step (cap : Nat) (q : List (List Nat)) (m : List Nat)
    (h : q.length ≤ cap) :
    Send cap q (some m) = lastN cap (q ++ [m]) := by
  simp only [Send]
  split
  · next hlt =>
    have : (q ++ [m]).length ≤ cap := by simp; omega
    rw [lastN_of_le this]
  · next hlt =>
    have hq : q.length = cap := by omega
    rcases q with _ | ⟨x, xs⟩
    · obtain rfl : cap = 0 := by simpa using hq.symm
      simp [lastN]
    · obtain rfl : cap = xs.length + 1 := by simpa using hq.symm
      have hdrop : (x :: xs ++ [m]).length - (xs.length + 1) = 1 := by
        simp
      simp [lastN, hdrop]

theorem length_Send_le (cap : Nat) (q : List (List Nat)) (m : List Nat)
    (h : q.length ≤ cap) : (Send cap q (some m)).length ≤ cap := by
  rw [Send_full_step cap q m h, length_lastN]
  exact Nat.min_le_left _ _

theorem sendAll_eq_lastN (cap : Nat) (ms : List (List Nat)) :
    ∀ q : List (List Nat), q.length ≤ cap →
      sendAll cap q ms = lastN cap (q ++ ms) := by
  induction ms with
  | nil => intro q h; simpa [sendAll] using (lastN_of_le h).symm
  | cons m ms ih =>
    intro q h
    have hstep : sendAll cap q (m :: ms) = sendAll cap (Send cap q (some m)) ms := by
      simp [sendAll]
    rw [hstep, ih _ (length_Send_le cap q m h), Send_full_step cap q m h,
      lastN_idem_append]
    have : (q ++ [m]) ++ ms = q ++ m :: ms := by simp
    rw [this]

/-- C2: for every sequence of `n` `Send` calls on a queue of capacity
`N` with no intervening dequeues, the queue afterwards holds exactly the
last `min(n, N)` enqueued messages in enqueue order (so enqueuing `N+1`
leaves the most recent `N`, oldest evicted first), the capacity is never
exceeded, and with spare capacity dequeue order equals enqueue order. -/
theorem C2_queue_bounded_fifo (cap : Nat) (ms : List (List Nat)) :
    sendAll cap [] ms = ms.drop (ms.length - cap) ∧
    (sendAll cap [] ms).length ≤ cap ∧
    (ms.length ≤ cap → sendAll cap [] ms = ms) := by
  have h : sendAll cap [] ms = lastN cap ms := by
    simpa using sendAll_eq_lastN cap ms [] (by simp)
  refine ⟨h, ?_, fun hle => ?_⟩
  · rw [h, length_lastN]; exact Nat.min_le_left _ _
  · rw [h, lastN_of_le hle]

theorem C2_queue_bounded_fifo_witness :
    sendAll 3 [] [[1], [2]] = [[1], [2]] ∧
    sendAll 2 [] [[1], [2], [3]] = [[2], [3]] := by
  constructor
  · exact (C2_queue_bounded_fifo 3 [[1], [2]]).2.2 (by decide)
  · have h := (C2_queue_bounded_fifo 2 [[1], [2], [3]]).1
    simpa using h

/-! ## Backoff lemmas -/

theorem nextBackoff_eq_mul (cfg : UdpCfg) (curr ε : ℚ) :
    nextBackoff cfg curr ε =
      (min (2 * (if curr ≤ 0 then cfg.base else curr)) cfg.max) * (1 + (1/5) * ε) := by
  simp only [nextBackoff]
  rcases le_or_lt (2 * (if curr ≤ 0 then cfg.base else curr)) cfg.max with h | h
  · rw [min_eq_left h, if_neg (not_lt.mpr h)]
    ring
  · rw [min_eq_right h.le, if_pos h]
    ring

/-- C10: for every current delay, `nextBackoff` returns a value in
`[0.8·m, 1.2·m]` where `m = min(2·d', MaxBackoff)` and `d'` is the
current delay when positive and `BaseBackoff` otherwise; the jitter is
applied after the cap, so when the doubling hits the cap the returned
delay reaches `1.2·MaxBackoff` — `MaxBackoff` is not a hard upper
bound, though `1.2·MaxBackoff` is. -/
theorem C10_nextBackoff_range (cfg : UdpCfg) (curr ε : ℚ)
    (hb : 0 < cfg.base) (hm : 0 < cfg.max) (hlo : -1 ≤ ε) (hhi : ε ≤ 1) :
    (4/5) * min (2 * (if curr ≤ 0 then cfg.base else curr)) cfg.max
        ≤ nextBackoff cfg curr ε ∧
    nextBackoff cfg curr ε
        ≤ (6/5) * min (2 * (if curr ≤ 0 then cfg.base else curr)) cfg.max ∧
    nextBackoff cfg curr ε ≤ (6/5) * cfg.max ∧
    (cfg.max ≤ 2 * (if curr ≤ 0 then cfg.base else curr) →
      nextBackoff cfg curr 1 = (6/5) * cfg.max) := by
  have hcpos : 0 < (if curr ≤ 0 then cfg.base else curr) := by
    split
    · exact hb
    · next hcl => exact lt_of_not_le hcl
  have hmpos : 0 < min (2 * (if curr ≤ 0 then cfg.base else curr)) cfg.max :=
    lt_min (by linarith) hm
  set m := min (2 * (if curr ≤ 0 then cfg.base else curr)) cfg.max with hmdef
  have hmle : m ≤ cfg.max := min_le_right _ _
  rw [nextBackoff_eq_mul, nextBackoff_eq_mul]
  refine ⟨?_, ?_, ?_, fun hcap => ?_⟩
  · nlinarith [mul_nonneg hmpos.le (by linarith : (0:ℚ) ≤ 1 + ε)]
  · nlinarith [mul_nonneg hmpos.le (by linarith : (0:ℚ) ≤ 1 - ε)]
  · nlinarith [mul_nonneg hmpos.le (by linarith : (0:ℚ) ≤ 1 - ε)]
  · rw [min_eq_right hcap]
    ring

theorem C10_nextBackoff_range_witness :
    (4/5) * min (2 * (if (10000 : ℚ) ≤ 0 then (200 : ℚ) else 10000)) 10000
        ≤ nextBackoff ⟨200, 10000⟩ 10000 1 ∧
    nextBackoff ⟨200, 10000⟩ 10000 1 ≤ (6/5) * 10000 ∧
    nextBackoff ⟨200, 10000⟩ 10000 1 = (6/5) * 10000 := by
  have h := C10_nextBackoff_range ⟨200, 10000⟩ 10000 1
    (by norm_num) (by norm_num) (by norm_num) (by norm_num)
  exact ⟨h.1, h.2.2.1, h.2.2.2 (by norm_num)⟩

/-! ## Stream `Run` loop lemmas -/

theorem runStep_bounds (b : ℚ) (e : Bool) (h1 : 1 ≤ b) (h30 : b ≤ backoffMax) :
    1 ≤ (runStep b e).1 ∧ (runStep b e).1 ≤ backoffMax := by
  cases e with
  | false => simp [runStep]; norm_num [backoffMax]
  | true =>
    simp only [runStep, if_true]
    constructor
    · split
      · split <;> [norm_num [backoffMax]; linarith]
      · exact h1
    · split
      · split
        · norm_num
        · next hlt _ => unfold backoffMax at *; linarith
      · exact h30

theorem runLoop_invariant (es : List Bool) :
    ∀ b : ℚ, 1 ≤ b → b ≤ backoffMax →
      (1 ≤ (runLoop es b).1 ∧ (runLoop es b).1 ≤ backoffMax) ∧
      ∀ d ∈ (runLoop es b).2, 1 ≤ d ∧ d ≤ backoffMax := by
  induction es with
  | nil => intro b h1 h30; simp [runLoop]; exact ⟨h1, h30⟩
  | cons e es ih =>
    intro b h1 h30
    have hstep := runStep_bounds b e h1 h30
    have hrest := ih (runStep b e).1 hstep.1 hstep.2
    refine ⟨by simpa [runLoop] using hrest.1, ?_⟩
    intro d hd
    simp only [runLoop, List.mem_append] at hd
    rcases hd with hd | hd
    · cases e with
      | false => simp [runStep] at hd
      | true =>
        have : d = b := by
          simp only [runStep, if_true, Option.toList_some, List.mem_singleton] at hd
          exact hd
        exact this ▸ ⟨h1, h30⟩
    · exact hrest.2 d hd

/-- C9: in the `Run` loop, a cycle that ends with no error resets the
backoff to the one-second base and reconnects without sleeping; a cycle
that ends with an error (a non-OK handshake status is an error) sleeps
the current backoff and then doubles it with the 30-second cap, so no
slept delay ever exceeds 30 seconds. -/
theorem C9_run_reconnect_backoff (b : ℚ) (es : List Bool) (status : Nat)
    (hb1 : 1 ≤ b) (hb30 : b ≤ backoffMax) (hst : status ≠ 200) :
    runStep b false = (1, none) ∧
    runStep b true = (min (b * 2) backoffMax, some b) ∧
    streamOnceStatusErr status ≠ none ∧
    (∀ d ∈ (runLoop es 1).2, d ≤ backoffMax) := by
  refine ⟨by simp [runStep], ?_, by simp [streamOnceStatusErr, hst], ?_⟩
  · simp only [runStep, if_true]
    rcases lt_or_ge b backoffMax with hlt | hge
    · rw [if_pos hlt]
      rcases le_or_lt (b * 2) backoffMax with hle | hgt
      · rw [if_neg (not_lt.mpr hle), min_eq_left hle]
      · rw [if_pos hgt, min_eq_right hgt.le]
    · have hbeq : b = backoffMax := le_antisymm hb30 hge
      rw [if_neg (not_lt.mpr hge), hbeq, min_eq_right (by norm_num [backoffMax])]
  · intro d hd
    exact ((runLoop_invariant es 1 le_rfl (by norm_num [backoffMax])).2 d hd).2

theorem C9_run_reconnect_backoff_witness :
    runStep 4 false = (1, none) ∧
    runStep 4 true = (8, some 4) ∧
    streamOnceStatusErr 503 ≠ none := by
  have h := C9_run_reconnect_backoff 4 [true, true, false] 503
    (by norm_num) (by norm_num [backoffMax]) (by norm_num)
  refine ⟨h.1, ?_, h.2.2.1⟩
  have h2 := h.2.1
  rw [h2]
  norm_num [backoffMax]

/-! ## Drain-loop (`runSender`) lemmas -/

theorem attemptLoop_writes_le (cfg : UdpCfg) (m : MsgCase) :
    ∀ (fuel i : Nat) (b : ℚ), (attemptLoop cfg m fuel i b).writes ≤ fuel := by
  intro fuel
  induction fuel with
  | zero => intro i b; simp [attemptLoop]
  | succ fuel ih =>
    intro i b
    cases h : m.res i with
    | ok => simp [attemptLoop, h]
    | fatal => simp [attemptLoop, h]
    | retry =>
      simp only [attemptLoop, h]
      exact Nat.succ_le_succ (ih (i + 1) _)

theorem processMsg_sent_writes (cfg : UdpCfg) (b : ℚ) (m : MsgCase) :
    ∃ b0 : ℚ,
      (processMsg cfg b m).sent = (attemptLoop cfg m maxSendAttempts 0 b0).sent ∧
      (processMsg cfg b m).writes = (attemptLoop cfg m maxSendAttempts 0 b0).writes := by
  unfold processMsg
  by_cases h1 : m.connReady
  · exact ⟨b, by simp [h1]⟩
  · by_cases h2 : m.reconnectOk
    · exact ⟨cfg.base, by simp [h1, h2]⟩
    · exact ⟨nextBackoff cfg b m.reconJit, by simp [h1, h2]⟩

theorem drainSender_length (cfg : UdpCfg) :
    ∀ (ms : List MsgCase) (b : ℚ), (drainSender cfg ms b).1.length = ms.length := by
  intro ms
  induction ms with
  | nil => intro b; simp [drainSender]
  | cons m ms ih => intro b; simp [drainSender, ih]

/-- C4: each dequeued message is written at most 3 times; an immediate
success takes one write, a non-retryable error at attempt `k` (after
`k` retryable failures) stops after `k+1` writes with the message
unsent, three retryable failures exhaust the attempts and the message is
dropped; the drain loop then moves on to the rest of the queue, holding
one outcome per message — the dropped message is never re-inserted. -/
theorem C4_retry_attempts (cfg : UdpCfg) (b : ℚ) (m : MsgCase) (ms : List MsgCase) :
    (processMsg cfg b m).writes ≤ maxSendAttempts ∧
    (m.res 0 = .ok →
      (processMsg cfg b m).sent = true ∧ (processMsg cfg b m).writes = 1) ∧
    (∀ k : Nat, k < maxSendAttempts → (∀ i, i < k → m.res i = .retry) →
      m.res k = .fatal →
      (processMsg cfg b m).sent = false ∧ (processMsg cfg b m).writes = k + 1) ∧
    ((∀ i, i < maxSendAttempts → m.res i = .retry) →
      (processMsg cfg b m).sent = false ∧
      (processMsg cfg b m).writes = maxSendAttempts) ∧
    (drainSender cfg (m :: ms) b).1 =
      processMsg cfg b m :: (drainSender cfg ms (processMsg cfg b m).backoff).1 ∧
    (drainSender cfg (m :: ms) b).1.length = ms.length + 1 := by
  obtain ⟨b0, hsent, hwrites⟩ := processMsg_sent_writes cfg b m
  refine ⟨?_, ?_, ?_, ?_, rfl, by simpa using drainSender_length cfg (m :: ms) b⟩
  · rw [hwrites]; exact attemptLoop_writes_le cfg m maxSendAttempts 0 b0
  · intro h0
    rw [hsent, hwrites]
    simp [maxSendAttempts, attemptLoop, h0]
  · intro k hk hpre hfat
    rw [hsent, hwrites]
    have hk3 : k < 3 := by simpa [maxSendAttempts] using hk
    interval_cases k
    · simp [maxSendAttempts, attemptLoop, hfat]
    · have h0 := hpre 0 (by norm_num)
      simp [maxSendAttempts, attemptLoop, h0, hfat]
    · have h0 := hpre 0 (by norm_num)
      have h1 := hpre 1 (by norm_num)
      simp [maxSendAttempts, attemptLoop, h0, h1, hfat]
  · intro hall
    rw [hsent, hwrites]
    have h0 := hall 0 (by norm_num [maxSendAttempts])
    have h1 := hall 1 (by norm_num [maxSendAttempts])
    have h2 := hall 2 (by norm_num [maxSendAttempts])
    simp [maxSendAttempts, attemptLoop, h0, h1, h2]

theorem C4_retry_attempts_witness :
    (processMsg ⟨200, 10000⟩ 200 ⟨true, true, 0, fun _ => .retry, fun _ => 0⟩).sent
      = false ∧
    (processMsg ⟨200, 10000⟩ 200 ⟨true, true, 0, fun _ => .retry, fun _ => 0⟩).writes
      = 3 := by
  have h := (C4_retry_attempts ⟨200, 10000⟩ 200
    ⟨true, true, 0, fun _ => .retry, fun _ => 0⟩ []).2.2.2.1 (fun i _ => rfl)
  simpa [maxSendAttempts] using h

theorem nextBackoff_of_pos_le (cfg : UdpCfg) (d ε : ℚ) (hd : 0 < d)
    (hcap : 2 * d ≤ cfg.max) :
    nextBackoff cfg d ε = 2 * d * (1 + (1/5) * ε) := by
  rw [nextBackoff_eq_mul, if_neg (not_le.mpr hd), min_eq_left hcap]

/-- C3: with three consecutive retryable write failures for one message
followed by a message whose send succeeds, the three delays slept
strictly increase for every admissible jitter draw (doubling below the
cap), and after the successful send the tracked backoff is back at the
base delay. -/
theorem C3_backoff_strictly_increases (cfg : UdpCfg) (ε1 ε2 ε3 : ℚ)
    (hb : 0 < cfg.base)
    (h1lo : -1 ≤ ε1) (h1hi : ε1 ≤ 1) (h2lo : -1 ≤ ε2) (h2hi : ε2 ≤ 1)
    (hcap1 : 2 * cfg.base ≤ cfg.max)
    (hcap2 : 2 * nextBackoff cfg cfg.base ε1 ≤ cfg.max) :
    (drainSender cfg [retryMsg ε1 ε2 ε3, okMsg] cfg.base).1.map MsgOutcome.sleeps =
      [[cfg.base, nextBackoff cfg cfg.base ε1,
        nextBackoff cfg (nextBackoff cfg cfg.base ε1) ε2], []] ∧
    cfg.base < nextBackoff cfg cfg.base ε1 ∧
    nextBackoff cfg cfg.base ε1 < nextBackoff cfg (nextBackoff cfg cfg.base ε1) ε2 ∧
    (drainSender cfg [retryMsg ε1 ε2 ε3, okMsg] cfg.base).2 = cfg.base := by
  have hd2 : nextBackoff cfg cfg.base ε1 = 2 * cfg.base * (1 + (1/5) * ε1) :=
    nextBackoff_of_pos_le cfg cfg.base ε1 hb hcap1
  have hd2pos : 0 < nextBackoff cfg cfg.base ε1 := by
    rw [hd2]; nlinarith
  have hd3 : nextBackoff cfg (nextBackoff cfg cfg.base ε1) ε2 =
      2 * nextBackoff cfg cfg.base ε1 * (1 + (1/5) * ε2) :=
    nextBackoff_of_pos_le cfg _ ε2 hd2pos hcap2
  refine ⟨?_, ?_, ?_, ?_⟩
  · simp [drainSender, processMsg, retryMsg, okMsg, attemptLoop, maxSendAttempts]
  · rw [hd2]; nlinarith
  · rw [hd3]; nlinarith
  · simp [drainSender, processMsg, retryMsg, okMsg, attemptLoop, maxSendAttempts]

theorem C3_backoff_strictly_increases_witness :
    (drainSender ⟨200, 10000⟩ [retryMsg 0 0 0, okMsg] 200).1.map MsgOutcome.sleeps =
      [[200, 400, 800], []] ∧
    (200 : ℚ) < 400 ∧ (400 : ℚ) < 800 ∧
    (drainSender ⟨200, 10000⟩ [retryMsg 0 0 0, okMsg] 200).2 = 200 := by
  have hd2 : nextBackoff ⟨200, 10000⟩ 200 0 = 400 := by
    norm_num [nextBackoff]
  have h := C3_backoff_strictly_increases ⟨200, 10000⟩ 0 0 0
    (by norm_num) (by norm_num) (by norm_num) (by norm_num) (by norm_num)
    (by norm_num) (by rw [hd2]; norm_num)
  refine ⟨?_, by norm_num, by norm_num, by simpa using h.2.2.2⟩
  rw [h.1]
  norm_num [nextBackoff]

/-! ## Decode and dispatch lemmas -/

theorem except_ok_bind {α β ε : Type} (a : α) (f : α → Except ε β) :
    (Except.ok a : Except ε α) >>= f = f a := rfl

theorem except_error_bind {α β ε : Type} (e : ε) (f : α → Except ε β) :
    (Except.error e : Except ε α) >>= f = .error e := rfl

/-- C5: a `contact` payload whose report state is `"contact"` decodes
and dispatches to exactly one wire message `/contact/<owner-id>/state`
with value 1; state `"no_contact"` gives the same path with value 0; a
`contact` payload with no `contact_report` produces no message. -/
theorem C5_contact_dispatch (id rid : String) :
    handleRecords [contactPayload id rid "contact"] =
      ([⟨"/contact/" ++ rid ++ "/state", 1⟩], none) ∧
    handleRecords [contactPayload id rid "no_contact"] =
      ([⟨"/contact/" ++ rid ++ "/state", 0⟩], none) ∧
    handleRecords [contactPayloadNoReport id rid] = ([], none) := by
  refine ⟨?_, ?_, ?_⟩ <;>
    simp [handleRecords, contactPayload, contactPayloadNoReport, decodeResource,
      probeType, getField, decStr, decContactEvent, withObj, decGeneric, decOwner,
      wrapErr, dispatch, except_ok_bind, except_error_bind]

/-- C7: a payload whose discriminator is outside the known set decodes
without error to the unknown-variant envelope carrying the discriminator
and the original payload unmodified, and dispatching it produces no wire
message. -/
theorem C7_unknown_discriminator (t : String) (j : Json)
    (hp : probeType j = .ok t) (hk : t ∉ knownTypes) :
    decodeResource j = .ok (.unknownEvent t j) ∧
    dispatch (.unknownEvent t j) = [] ∧
    handleRecords [j] = ([], none) := by
  simp only [knownTypes, List.mem_cons, List.mem_singleton, not_or] at hk
  obtain ⟨n1, n2, n3, n4, n5, n6, n7, n8, n9, n10, n11, n12⟩ := hk
  have hn12 : ¬ t ∈ ([] : List String) := by simp
  have hdec : decodeResource j = .ok (.unknownEvent t j) := by
    simp [decodeResource, hp, except_ok_bind, n1, n2, n3, n4, n5, n6, n7, n8,
      n9, n10, n11, n12]
  exact ⟨hdec, rfl, by simp [handleRecords, hdec, dispatch]⟩

theorem C7_unknown_discriminator_witness :
    decodeResource (.obj [("type", .str "button")]) =
      .ok (.unknownEvent "button" (.obj [("type", .str "button")])) ∧
    handleRecords [.obj [("type", .str "button")]] = ([], none) := by
  have h := C7_unknown_discriminator "button" (.obj [("type", .str "button")])
    (by simp [probeType, getField, decStr]) (by simp [knownTypes])
  exact ⟨h.1, h.2.2⟩

/-- C8: the source's `"light_level"` case of `decodeResource` unmarshals
with the `LightEvent` struct, so a `light_level` payload carrying an
ambient-light-level report decodes to a `LightEvent` and `handle`
produces zero wire messages — the `LightLevelEvent` dispatch arm that
would produce `/sensor/<id>/light_level` with the level passed through
unaltered is unreachable. -/
theorem C8_light_level_decoded_as_light :
    decodeResource (lightLevelPayload "ll1" "sensor1" 25000) =
      .ok (.light ⟨"ll1", "light_level", ⟨"sensor1", "device"⟩⟩ none) ∧
    handleRecords [lightLevelPayload "ll1" "sensor1" 25000] = ([], none) ∧
    dispatch (.lightLevel ⟨"ll1", "light_level", ⟨"sensor1", "device"⟩⟩
        (some ⟨25000⟩)) =
      [⟨"/sensor/" ++ "sensor1" ++ "/light_level", 25000⟩] := by
  refine ⟨?_, ?_, by simp [dispatch]⟩ <;>
    simp [handleRecords, lightLevelPayload, decodeResource, probeType, getField,
      decStr, decLightEvent, withObj, decGeneric, decOwner, wrapErr, dispatch,
      except_ok_bind, except_error_bind]

/-- C1: a structural decode failure on one record aborts `handle` for
the whole batch: with a malformed second record, only the first record's
wire message is produced and an error is returned, although the third
record decodes and dispatches fine on its own. -/
theorem C1_decode_error_aborts_batch :
    handleContainers [[contactPayload "c1" "o1" "contact", badContactPayload,
        contactPayload "c3" "o3" "no_contact"]] =
      ([⟨"/contact/" ++ "o1" ++ "/state", 1⟩],
        some "contact: ContactEvent: cannot unmarshal field contact_report") ∧
    handleRecords [contactPayload "c3" "o3" "no_contact"] =
      ([⟨"/contact/" ++ "o3" ++ "/state", 0⟩], none) := by
  constructor <;>
    simp [handleContainers, handleRecords, contactPayload, badContactPayload,
      decodeResource, probeType, getField, decStr, decContactEvent, withObj,
      decGeneric, decOwner, wrapErr, dispatch, except_ok_bind, except_error_bind]

/-! ## `parseCommand` lemmas -/

theorem fieldsAux_tokens (s : List Char) :
    ∀ acc : List Char, (∀ c ∈ acc, isSpaceGo c = false) →
      ∀ w ∈ fieldsAux s acc, w ≠ [] ∧ ∀ c ∈ w, isSpaceGo c = false := by
  induction s with
  | nil =>
    intro acc hacc w hw
    simp only [fieldsAux] at hw
    by_cases he : acc.isEmpty
    · rw [if_pos he] at hw
      simp at hw
    · rw [if_neg he] at hw
      obtain rfl := List.mem_singleton.mp hw
      refine ⟨by simpa [List.isEmpty_iff] using he, ?_⟩
      intro c hc
      exact hacc c (List.mem_reverse.mp hc)
  | cons c cs ih =>
    intro acc hacc w hw
    cases hsp : isSpaceGo c with
    | true =>
      by_cases he : acc.isEmpty
      · rw [fieldsAux, if_pos (by simp [hsp]), if_pos he] at hw
        exact ih [] (by simp) w hw
      · rw [fieldsAux, if_pos (by simp [hsp]), if_neg he] at hw
        rcases List.mem_cons.mp hw with rfl | hw2
        · refine ⟨by simpa [List.isEmpty_iff] using he, ?_⟩
          intro d hd
          exact hacc d (List.mem_reverse.mp hd)
        · exact ih [] (by simp) w hw2
    | false =>
      rw [fieldsAux, if_neg (by simp [hsp])] at hw
      refine ih (c :: acc) ?_ w hw
      intro d hd
      rcases List.mem_cons.mp hd with rfl | hd2
      · exact hsp
      · exact hacc d hd2

theorem fieldsAux_append_nonspace :
    ∀ t : List Char, (∀ c ∈ t, isSpaceGo c = false) →
      ∀ s acc : List Char, fieldsAux (t ++ s) acc = fieldsAux s (t.reverse ++ acc) := by
  intro t
  induction t with
  | nil => intro _ s acc; simp
  | cons c t ih =>
    intro ht s acc
    have hc : isSpaceGo c = false := ht c (by simp)
    have ht2 : ∀ d ∈ t, isSpaceGo d = false := fun d hd => ht d (by simp [hd])
    rw [List.cons_append, fieldsAux, if_neg (by simp [hc]), ih ht2]
    simp

theorem fieldsGo_joinSpace :
    ∀ toks : List (List Char),
      (∀ w ∈ toks, w ≠ [] ∧ ∀ c ∈ w, isSpaceGo c = false) →
      fieldsGo (joinSpace toks) = toks := by
  intro toks
  induction toks with
  | nil => intro _; rfl
  | cons t ts ih =>
    intro h
    obtain ⟨hne, hch⟩ := h t (by simp)
    have hrevne : ¬ (t.reverse.isEmpty) := by
      simpa [List.isEmpty_iff] using hne
    cases ts with
    | nil =>
      have hj : joinSpace [t] = t := by simp [joinSpace]
      rw [hj, fieldsGo, ← List.append_nil t, fieldsAux_append_nonspace t hch [] []]
      simp [fieldsAux, hrevne]
    | cons t2 ts2 =>
      have hj : joinSpace (t :: t2 :: ts2) = t ++ ' ' :: joinSpace (t2 :: ts2) := by
        simp [joinSpace, List.intersperse]
      rw [hj, fieldsGo, fieldsAux_append_nonspace t hch _ []]
      rw [List.append_nil, fieldsAux, if_pos (by simp [isSpaceGo]), if_neg hrevne]
      rw [List.reverse_reverse]
      have := ih (fun w hw => h w (by simp [hw]))
      rw [fieldsGo] at this
      rw [this]

theorem parseCommand_congr_fields (l1 l2 : List Char)
    (h : fieldsGo l1 = fieldsGo l2) : parseCommand l1 = parseCommand l2 := by
  unfold parseCommand
  rw [h]

/-- C6: `parseCommand` accepts a line exactly under the condition of
`SpecAcceptsC6` (leading-slash path of at least four segments, domain
`grouped_light`, action `on` with a case-insensitive boolean value or
`dimmable` with an integer in `0..100`); a `dimmable` value out of range
fails with the value-range error and a bad `on` value with the
invalid-boolean error; and any line parses identically to its
whitespace-normalised form. -/
theorem C6_parseCommand_characterisation :
    (∀ line : List Char, (∃ c, parseCommand line = .ok c) ↔ SpecAcceptsC6 line) ∧
    parseCommand "/grouped_light/abc-123/dimmable 101".toList =
      .error .dimmableRange ∧
    parseCommand "/grouped_light/abc-123/on maybe".toList =
      .error .onExpectsBool ∧
    (∀ line : List Char, parseCommand (joinSpace (fieldsGo line)) = parseCommand line) ∧
    parseCommand "   /grouped_light/abc-123/on   true   ".toList =
      parseCommand "/grouped_light/abc-123/on true".toList := by
  have hwhite : ∀ line : List Char,
      parseCommand (joinSpace (fieldsGo line)) = parseCommand line := by
    intro line
    apply parseCommand_congr_fields
    exact fieldsGo_joinSpace (fieldsGo line) (fieldsAux_tokens line [] (by simp))
  refine ⟨?_, by rfl, by rfl, hwhite, ?_⟩
  · intro line
    rcases hf : fieldsGo line with _ | ⟨path, _ | ⟨value, rest⟩⟩
    · simp [parseCommand, SpecAcceptsC6, hf]
    · simp [parseCommand, SpecAcceptsC6, hf]
    · have hP : parseCommand line = parseSegs (splitSlash (trimGo path)) value := by
        unfold parseCommand
        rw [hf]
      have hS : SpecAcceptsC6 line = SpecSegsC6 (splitSlash (trimGo path)) value := by
        unfold SpecAcceptsC6
        rw [hf]
      rw [hP, hS]
      rcases splitSlash (trimGo path) with
        _ | ⟨s0, _ | ⟨dom, _ | ⟨idd, _ | ⟨act, srest⟩⟩⟩⟩
      · simp [parseSegs, SpecSegsC6]
      · simp [parseSegs, SpecSegsC6]
      · simp [parseSegs, SpecSegsC6]
      · simp [parseSegs, SpecSegsC6]
      · simp only [parseSegs, SpecSegsC6, ne_eq]
        split
        · next h0 => simp [h0]
        · next h0 =>
          obtain rfl : s0 = [] := not_not.mp h0
          split
          · next hdom =>
            simp [hdom]
            exact fun hd => absurd hd hdom
          · next hdom =>
            obtain rfl : dom = "grouped_light".toList := not_not.mp hdom
            split
            · next hon =>
              subst hon
              split
              · next hv =>
                simp [show ¬ ("on".toList = "dimmable".toList) by decide]
                exact hv
              · next hv =>
                simp [show ¬ ("on".toList = "dimmable".toList) by decide]
                push_neg at hv
                exact hv
            · next hon =>
              split
              · next hdim =>
                subst hdim
                split
                · next n ha =>
                  split
                  · next hr => simp [ha, hr, hon]
                  · next hr => simp [ha, hr, hon]
                · next ha => simp [ha, hon]
              · next hdim =>
                simp [hon, hdim]
                exact ⟨fun h => absurd h hon, fun h => absurd h hdim⟩
  · calc parseCommand "   /grouped_light/abc-123/on   true   ".toList
        = parseCommand (joinSpace (fieldsGo "   /grouped_light/abc-123/on   true   ".toList)) :=
          (hwhite _).symm
      _ = parseCommand "/grouped_light/abc-123/on true".toList := by
          have : joinSpace (fieldsGo "   /grouped_light/abc-123/on   true   ".toList) =
              "/grouped_light/abc-123/on true".toList := by decide
          rw [this]

end LoxoneHue
